import Mathlib

/-!
# sswixelbridge: a verification development

A shallow embedding of `src/sswixelbridge.c` (the Sokeriseuranta Wixel bridge) and
theorems about it.

Modelling conventions

* A C `int` is a Lean `Int`; the one place where the program adds two ints
  (`raw_value + filtered_value`) is reduced to 32 bits by `to_int`.  The library call
  `atoi` is `(int) strtol`: it saturates at the range of `long` (64 bits) and then keeps
  the low 32 bits.
* A C `double` is modelled by the exact rational it denotes (`ℚ`).  The program only
  divides an int by the constant 22500 and compares the quotient with zero, and both
  comparisons agree between the rational and its nearest double.
* A `char` buffer is a `List Char`; the byte 0 is `NUL`.
* The outside world (the serial device, the clock, the file system, libcurl) is an
  explicit argument: a stream of read events, a record of library results, and so on.
* Undefined behaviour of the C program (writing past `values[8]`, scanning an
  unterminated `buf`) is an explicit `Fault`.
-/

namespace SSWixelBridge

/-! ## Machine integers -/

/-- Smallest value of a 32-bit C `int`. -/
def INT_MIN : Int := -2147483648

/-- Largest value of a 32-bit C `int`. -/
def INT_MAX : Int := 2147483647

/-- Reduction of a mathematical integer to the 32-bit two's complement `int` range. -/
def to_int (z : Int) : Int := (z + 2147483648) % 4294967296 - 2147483648

/-- The C expression `a + b` on two `int`s. -/
def int_add (a b : Int) : Int := to_int (a + b)

/-! ## `raw_to_bg` (lines 48-58) -/

/-- The function `raw_to_bg`: `int raw = (raw_value + filtered_value) / 2;`
`double bg = (double)raw / (double)(1250*18);`.  C integer division truncates toward
zero, which is `Int.tdiv`. -/
def raw_to_bg (raw_value filtered_value : Int) : ℚ :=
  let raw : Int := Int.tdiv (int_add raw_value filtered_value) 2
  let bg : ℚ := (raw : ℚ) / (((1250 * 18 : Int)) : ℚ)
  bg

/-! ## `read_until` (lines 184-241) -/

/-- The zero byte. -/
def NUL : Char := Char.ofNat 0

/-- What the outside world does during one iteration of the loop of `read_until`:
the result of `read(fd, buffer+pos, 1)` (`some c`: one byte `c` was stored, `none`: the
call returned a non-positive count and stored nothing), the value of `time(NULL)` taken
afterwards, and whether the test
`fcntl(fd, F_GETFD) == -1 || errno == EBADF || errno == ENOENT` holds. -/
structure ReadEvent where
  byte : Option Char
  now : Int
  fd_bad : Bool
deriving DecidableEq, Repr

/-- The local variables of `read_until` together with the caller's buffer. -/
structure LoopState where
  pos : Nat
  fail_count : Nat
  buffer : List Char
deriving DecidableEq, Repr

/-- Result of one pass through the loop body: go round again, or `break`. -/
inductive StepResult where
  | next (st : LoopState)
  | done (buffer : List Char)
deriving DecidableEq, Repr

/-- The call `memset(buffer, 0, n)`. -/
def memset_zero (buffer : List Char) (n : Nat) : List Char :=
  List.replicate n NUL ++ buffer.drop n

/-- The buffer after `read(fd, buffer+pos, 1)`: a delivered byte is stored at `pos`, a
failed read stores nothing. -/
def read_byte (st : LoopState) (ev : ReadEvent) : List Char :=
  match ev.byte with
  | some c => st.buffer.set st.pos c
  | none => st.buffer

/-- One pass through the body of `while(pos < buf_len)` in `read_until`, in source order:
the one-byte read, the delimiter test on `buffer[pos]`, the deadline test
(`difftime(t2, t1) >= 370`), and then either the success branch or the failure branch. -/
def read_until_step (expected : Char) (buf_len : Nat) (t1 : Int)
    (st : LoopState) (ev : ReadEvent) : StepResult :=
  let buffer := read_byte st ev
  if buffer.getD st.pos NUL = expected then .done buffer
  else if 370 ≤ ev.now - t1 then .done (memset_zero buffer buf_len)
  else match ev.byte with
    | some _ => .next ⟨st.pos + 1, 0, buffer⟩
    | none =>
      if ev.fd_bad then .done (memset_zero buffer buf_len)
      else if st.fail_count + 1 > 5 then .done (memset_zero buffer buf_len)
      else .next ⟨st.pos, st.fail_count + 1, buffer⟩

/-- The loop of `read_until`, bounded by `fuel` passes; `i` is the index of the next
event.  The answer is `none` only when the fuel runs out while the loop condition
still holds. -/
def read_until_loop (expected : Char) (buf_len : Nat) (t1 : Int) (env : Nat → ReadEvent) :
    Nat → Nat → LoopState → Option (List Char)
  | 0, _, st => if st.pos < buf_len then none else some st.buffer
  | fuel + 1, i, st =>
    if st.pos < buf_len then
      match read_until_step expected buf_len t1 st (env i) with
      | .done b => some b
      | .next st1 => read_until_loop expected buf_len t1 env fuel (i + 1) st1
    else some st.buffer

/-- The function `read_until(fd, buffer, expected, buf_len)`: the buffer it leaves to the
caller.  `t1` is the value of `time(NULL)` at entry.  Every pass either leaves the loop,
advances `pos`, or raises `fail_count` (which never passes 5 without leaving), so
`6 * buf_len` passes always suffice (`read_until_total`). -/
def read_until (env : Nat → ReadEvent) (t1 : Int) (buffer : List Char) (expected : Char)
    (buf_len : Nat) : Option (List Char) :=
  read_until_loop expected buf_len t1 env (6 * buf_len) 0 ⟨0, 0, buffer⟩

/-- The loop state at the start of pass `j` of `read_until`, or `none` when the loop has
been left before that pass. -/
def read_until_state (env : Nat → ReadEvent) (t1 : Int) (buffer : List Char) (expected : Char)
    (buf_len : Nat) : Nat → Option LoopState
  | 0 => if 0 < buf_len then some ⟨0, 0, buffer⟩ else none
  | j + 1 =>
    match read_until_state env t1 buffer expected buf_len j with
    | none => none
    | some st =>
      match read_until_step expected buf_len t1 st (env j) with
      | .done _ => none
      | .next st1 => if st1.pos < buf_len then some st1 else none

/-- The bytes that the reads of passes `0 .. j-1` delivered, in order. -/
def delivered (env : Nat → ReadEvent) (j : Nat) : List Char :=
  (List.range j).filterMap (fun i => (env i).byte)

/-- A complete frame of capacity `n`: the bytes delivered up to some pass, in order and
none of them the delimiter, then the delimiter, then the untouched zero bytes. -/
def frame_complete (env : Nat → ReadEvent) (expected : Char) (n : Nat) (b : List Char) :
    Prop :=
  ∃ j, (delivered env j).length < n ∧ expected ∉ delivered env j ∧
    b = delivered env j ++ expected :: List.replicate (n - (delivered env j).length - 1) NUL

/-- A frame filled to its capacity `n` without a delimiter: the first `n` delivered bytes,
none of them the delimiter. -/
def frame_exhausted (env : Nat → ReadEvent) (expected : Char) (n : Nat) (b : List Char) :
    Prop :=
  ∃ j, (delivered env j).length = n ∧ expected ∉ delivered env j ∧ b = delivered env j

/-- A device that delivers the bytes of `line` one per read, at clock value `t`, and
nothing afterwards. -/
def deliver (line : List Char) (t : Int) : Nat → ReadEvent :=
  fun i => match line.get? i with
    | some c => ⟨some c, t, false⟩
    | none => ⟨none, t, false⟩

/-- The elapsed time that the deadline test of pass `j` observes, or `none` when that test
is not executed (the loop was left before pass `j`, or pass `j` left it at the delimiter
test). -/
def deadline_check (env : Nat → ReadEvent) (t1 : Int) (buffer : List Char) (expected : Char)
    (buf_len : Nat) (j : Nat) : Option Int :=
  match read_until_state env t1 buffer expected buf_len j with
  | none => none
  | some st =>
    if (read_byte st (env j)).getD st.pos NUL = expected then none
    else some ((env j).now - t1)

/-! ## `read_wixel` (lines 244-289) -/

/-- Ways in which the C program leaves defined behaviour while parsing a frame. -/
inductive Fault where
  /-- The write `values[n++] = ...` with `n >= 8`, past the end of `int values[8]`. -/
  | values_overflow
  /-- No zero byte in `buf`, so `strtok` scans past the end of `char buf[100]`. -/
  | unterminated_buffer
  /-- The bound on the passes of the loop of `read_until` was reached (this never
  happens, see `read_until_total`). -/
  | out_of_fuel
deriving DecidableEq, Repr

deriving instance DecidableEq for Except

/-- The C string held in a buffer: the bytes before the first zero byte; `none` when the
buffer holds no zero byte. -/
def c_string (buf : List Char) : Option (List Char) :=
  if NUL ∈ buf then some (buf.takeWhile (fun c => c != NUL)) else none

/-- One call of `strtok` with the delimiter set `delim`, on the part of the string not
yet consumed: skip leading delimiters; at the end of the string the answer is `NULL`;
otherwise the token runs to the next delimiter (which is overwritten and skipped) or to the
end of the string.  The answer is the token and what is left for the next call. -/
def strtok (delim : Char) (s : List Char) : Option (List Char × List Char) :=
  match s.dropWhile (fun c => c == delim) with
  | [] => none
  | c :: cs =>
    some ((c :: cs).takeWhile (fun d => d != delim),
      ((c :: cs).dropWhile (fun d => d != delim)).drop 1)

/-- The C library predicate `isspace` in the "C" locale. -/
def isspace (c : Char) : Bool :=
  c == ' ' || (9 ≤ c.toNat && c.toNat ≤ 13)

/-- The digit loop of `strtol`: accumulate decimal digits, stop at the first other byte. -/
def atoi_digits : Nat → List Char → Nat
  | acc, [] => acc
  | acc, c :: cs => if c.isDigit then atoi_digits (acc * 10 + (c.toNat - 48)) cs else acc

/-- Smallest value of a C `long` (64 bits, as on the LP64 platforms of glibc). -/
def LONG_MIN : Int := -9223372036854775808

/-- Largest value of a C `long` (64 bits, as on the LP64 platforms of glibc). -/
def LONG_MAX : Int := 9223372036854775807

/-- Saturation of `strtol`: a value outside the range of `long` becomes `LONG_MIN` or
`LONG_MAX`. -/
def clamp_long (z : Int) : Int :=
  if z < LONG_MIN then LONG_MIN else if LONG_MAX < z then LONG_MAX else z

/-- The C library call `strtol(s, NULL, 10)`: skip white space, take an optional sign, read
decimal digits; a string with no digits gives 0, a value outside the range of `long`
saturates. -/
def strtol (s : List Char) : Int :=
  match s.dropWhile isspace with
  | [] => 0
  | c :: cs =>
    if c = '-' then clamp_long (-((atoi_digits 0 cs : Nat) : Int))
    else if c = '+' then clamp_long ((atoi_digits 0 cs : Nat) : Int)
    else clamp_long ((atoi_digits 0 (c :: cs) : Nat) : Int)

/-- The C library function `atoi`, which is `(int) strtol(s, NULL, 10)`: the saturated
`long` is converted to `int` by keeping its low 32 bits.  So `"100000000000000000000"`
gives `-1` and a token within the `int` range gives its value. -/
def atoi (s : List Char) : Int :=
  to_int (strtol s)

/-- The loop `while (token != NULL) { values[n++] = atoi(token); token = strtok(NULL, " "); }`.
The first argument is the number of slots of `values` not yet written (`8 - n`): a
token that arrives when it is 0 is written past the end of the array. -/
def read_wixel_tokens : Nat → Option (List Char × List Char) → Nat → List Int →
    Except Fault (List Int)
  | _, none, _, values => .ok values
  | 0, some _, _, _ => .error Fault.values_overflow
  | room + 1, some (token, rest), n, values =>
    read_wixel_tokens room (strtok ' ' rest) (n + 1) (values.set n (atoi token))

/-- The tokenising part of `read_wixel`: `int values[8] = {0}` filled from `buf`. -/
def read_wixel_parse (buf : List Char) : Except Fault (List Int) :=
  match c_string buf with
  | none => .error Fault.unterminated_buffer
  | some s => read_wixel_tokens 8 (strtok ' ' s) 0 (List.replicate 8 0)

/-- The record `sensor_data_t`. -/
structure sensor_data_t where
  capture_timestamp : String
  relative_time : Int
  transmitter_id : Int
  raw_value : Int
  filtered_value : Int
  battery_life : Int
  received_signal_strength : Int
  transmission_id : Int
  bg_value : ℚ
deriving DecidableEq, Repr

/-- The second half of `read_wixel`: fill the record from `values` and return `NULL`
(`none`) when `bg_value == 0`.  The time stamp is what `strftime` produced. -/
def read_wixel_build (values : List Int) (timestamp : String) : Option sensor_data_t :=
  let data : sensor_data_t :=
    { capture_timestamp := timestamp
      relative_time := 0
      transmitter_id := values.getD 0 0
      raw_value := values.getD 1 0
      filtered_value := values.getD 2 0
      battery_life := values.getD 3 0
      received_signal_strength := values.getD 4 0
      transmission_id := values.getD 5 0
      bg_value := raw_to_bg (values.getD 1 0) (values.getD 2 0) }
  if data.bg_value = 0 then none else some data

/-- The part of `read_wixel` after the call of `read_until`, as a function of the frame. -/
def read_wixel_frame (buf : List Char) (timestamp : String) :
    Except Fault (Option sensor_data_t) :=
  match read_wixel_parse buf with
  | .error e => .error e
  | .ok values => .ok (read_wixel_build values timestamp)

/-- The function `read_wixel(fd)`: `char buf[100] = {0}; read_until(fd, buf, '\n', 100);`
and then the parse. -/
def read_wixel (env : Nat → ReadEvent) (t1 : Int) (timestamp : String) :
    Except Fault (Option sensor_data_t) :=
  match read_until env t1 (List.replicate 100 NUL) '\n' 100 with
  | none => .error Fault.out_of_fuel
  | some buf => read_wixel_frame buf timestamp

/-- Decimal notation of an integer: a minus sign for a negative number, then the digits
without leading zeros. -/
def decimal (z : Int) : List Char :=
  if z < 0 then '-' :: Nat.toDigits 10 z.natAbs else Nat.toDigits 10 z.natAbs

/-- The line `"t r f b s x\n"` of the serial protocol. -/
def wixel_line (t r f b s x : Int) : List Char :=
  decimal t ++ ' ' :: (decimal r ++ ' ' :: (decimal f ++ ' ' :: (decimal b ++ ' ' ::
    (decimal s ++ ' ' :: (decimal x ++ ['\n'])))))

/-! ## The main loop (lines 553-586) -/

/-- What one cycle of the main loop does after `read_wixel` has returned. -/
inductive Action where
  /-- The call `syslog(LOG_INFO, "Got bg value %.2f", value)`. -/
  | log_got_bg (value : ℚ)
  /-- The call `syslog(LOG_INFO, "Uploading bg value %.2f", data->bg_value)`. -/
  | log_uploading (value : ℚ)
  /-- The call `upload_data(data)`. -/
  | upload_data (data : sensor_data_t)
  /-- The call `syslog(LOG_WARNING, ...)` saying that the value is not uploaded. -/
  | log_not_uploading
  /-- The call `close(wixel)`. -/
  | close_wixel
  /-- The call `free(data)`. -/
  | free_data
  /-- The call `sleep(seconds)`. -/
  | sleep (seconds : Nat)
deriving DecidableEq, Repr

/-- One cycle of `while (keep_going)` in `main` from the return of `read_wixel` on:
the calls made, in order.  `data` is the pointer returned by `read_wixel` and
`upload_to_cloud` the global flag. -/
def main_cycle (data : Option sensor_data_t) (upload_to_cloud : Int) : List Action :=
  (match data with
    | some d => [Action.log_got_bg (raw_to_bg d.raw_value d.filtered_value)]
    | none => []) ++
  (match data with
    | some d =>
      if upload_to_cloud = 1 ∧ d.bg_value > 0 then
        [Action.log_uploading d.bg_value, Action.upload_data d]
      else [Action.log_not_uploading]
    | none => [Action.log_not_uploading]) ++
  [Action.close_wixel, Action.free_data, Action.sleep 6]

/-! ## `upload_data` (lines 431-525) -/

/-- The results of the library calls made by `upload_data` that decide its return value. -/
structure UploadWorld where
  /-- Whether `curl_easy_init()` returned a handle (not `NULL`). -/
  curl_handle : Bool
  /-- The `CURLcode` returned by `curl_fetch_url`; `CURLE_OK` is 0. -/
  result_code : Nat
  /-- The number of response bytes collected, `cf->size`. -/
  size : Nat
  /-- Whether `cf->payload != NULL`. -/
  payload_present : Bool
  /-- The `json_tokener_error` set by `json_tokener_parse_verbose`;
  `json_tokener_success` is 0. -/
  jerr : Nat
deriving DecidableEq, Repr

/-- The return value of `upload_data`. -/
def upload_data (w : UploadWorld) : Int :=
  if !w.curl_handle then 1
  else if w.result_code ≠ 0 ∨ w.size < 1 then 2
  else if !w.payload_present then 3
  else if w.jerr ≠ 0 then 4
  else 0

/-! ## `find_wixel` (lines 292-356) -/

/-- The file system as `find_wixel` sees it.  Both functions take the number of the pass
through the retry loop, since the device files may come and go. -/
structure DeviceWorld where
  /-- The test `access(path, F_OK) != -1`. -/
  access_ok : Nat → String → Bool
  /-- The value of `open(path, O_RDONLY | O_NOCTTY)`. -/
  open_fd : Nat → String → Int

/-- The four device files probed for connection kind `"usb"`, by number. -/
def usb_candidate : Nat → String
  | 0 => "/dev/ttyACM0"
  | 1 => "/dev/ttyACM1"
  | 2 => "/dev/ttyACM2"
  | _ => "/dev/ttyACM3"

/-- The body of the retry loop of `find_wixel`: the new value of `wixel`. -/
def find_wixel_probe (w : DeviceWorld) (datatype : String) (attempt : Nat) (wixel : Int) :
    Int :=
  if datatype = "serial" then w.open_fd attempt "/dev/ttyAMA0"
  else if datatype = "usb" then
    if w.access_ok attempt "/dev/ttyACM0" then w.open_fd attempt "/dev/ttyACM0"
    else if w.access_ok attempt "/dev/ttyACM1" then w.open_fd attempt "/dev/ttyACM1"
    else if w.access_ok attempt "/dev/ttyACM2" then w.open_fd attempt "/dev/ttyACM2"
    else if w.access_ok attempt "/dev/ttyACM3" then w.open_fd attempt "/dev/ttyACM3"
    else wixel
  else wixel

/-- The loop `while (failcount >= 0 && wixel == 0) { ...; failcount--; }`, bounded by
`fuel` passes; `none` only when the fuel runs out while the condition still holds. -/
def find_wixel_loop (w : DeviceWorld) (datatype : String) :
    Nat → Int → Int → Nat → Option Int
  | 0, failcount, wixel, _ => if failcount ≥ 0 ∧ wixel = 0 then none else some wixel
  | fuel + 1, failcount, wixel, attempt =>
    if failcount ≥ 0 ∧ wixel = 0 then
      find_wixel_loop w datatype fuel (failcount - 1)
        (find_wixel_probe w datatype attempt wixel) (attempt + 1)
    else some wixel

/-- What `find_wixel` returns and whether it configured that descriptor as a serial port. -/
structure FindResult where
  /-- The returned value of `wixel`. -/
  wixel : Int
  /-- Whether the block guarded by `if (wixel != -1)` (`tcgetattr` ... `tcflush`) ran. -/
  configured : Bool
deriving DecidableEq, Repr

/-- The function `find_wixel(datatype)`: `int wixel = 0; int failcount = 3;`, the retry
loop (at most four passes), then the serial set-up when `wixel != -1`. -/
def find_wixel (w : DeviceWorld) (datatype : String) : Option FindResult :=
  match find_wixel_loop w datatype 4 3 0 0 with
  | none => none
  | some wixel => some ⟨wixel, wixel != -1⟩

end SSWixelBridge

namespace SSWixelBridge

/-! ## Arithmetic lemmas -/

lemma to_int_of_range (z : Int) (hlo : INT_MIN ≤ z) (hhi : z ≤ INT_MAX) : to_int z = z := by
  unfold INT_MIN at hlo
  unfold INT_MAX at hhi
  unfold to_int
  omega

lemma clamp_long_of_range (z : Int) (hlo : INT_MIN ≤ z) (hhi : z ≤ INT_MAX) :
    clamp_long z = z := by
  unfold INT_MIN at hlo
  unfold INT_MAX at hhi
  unfold clamp_long LONG_MIN LONG_MAX
  rw [if_neg (by omega), if_neg (by omega)]

lemma tdiv_two (s : Int) : Int.tdiv s 2 = if 0 ≤ s then s / 2 else -((-s) / 2) := by
  split
  · rename_i h
    exact Int.tdiv_eq_ediv h (by decide)
  · rename_i h
    have h1 : s = -(-s) := by omega
    rw [h1, Int.neg_tdiv, Int.tdiv_eq_ediv (by omega) (by decide)]
    simp

lemma tdiv_two_eq_zero_iff (s : Int) : Int.tdiv s 2 = 0 ↔ -1 ≤ s ∧ s ≤ 1 := by
  rw [tdiv_two]
  split <;> omega

lemma raw_to_bg_def (r f : Int) :
    raw_to_bg r f = ((Int.tdiv (int_add r f) 2 : Int) : ℚ) / 22500 := by
  unfold raw_to_bg
  norm_num

lemma raw_to_bg_eq_zero_iff (r f : Int) :
    raw_to_bg r f = 0 ↔ Int.tdiv (int_add r f) 2 = 0 := by
  rw [raw_to_bg_def]
  constructor
  · intro h
    have h2 : ((Int.tdiv (int_add r f) 2 : Int) : ℚ) = 0 := by
      rcases div_eq_zero_iff.mp h with h1 | h1
      · exact h1
      · norm_num at h1
    exact_mod_cast h2
  · intro h
    rw [h]
    simp

lemma raw_to_bg_pos_iff (r f : Int) :
    0 < raw_to_bg r f ↔ 0 < Int.tdiv (int_add r f) 2 := by
  rw [raw_to_bg_def]
  constructor
  · intro h
    have h2 : (0 : ℚ) < ((Int.tdiv (int_add r f) 2 : Int) : ℚ) := by
      by_contra hc
      have h3 : ((Int.tdiv (int_add r f) 2 : Int) : ℚ) ≤ 0 := not_lt.mp hc
      have h4 : ((Int.tdiv (int_add r f) 2 : Int) : ℚ) / 22500 ≤ 0 :=
        div_nonpos_of_nonpos_of_nonneg h3 (by norm_num)
      exact absurd h (not_lt.mpr h4)
    exact_mod_cast h2
  · intro h
    have h2 : (0 : ℚ) < ((Int.tdiv (int_add r f) 2 : Int) : ℚ) := by exact_mod_cast h
    exact div_pos h2 (by norm_num)

/-! ## C1: the measurement formula -/

/-- C1. For every pair of ints `r`, `f` whose sum is an int (no signed overflow),
`raw_to_bg r f` is the exact quotient by 22500 of the integer average `(r + f) / 2`,
where the average is taken by integer division truncating toward zero (so an odd sum
loses its half: twice the average is the sum minus its sign) and `22500 = 1250 * 18`.
Without the range condition the same holds with the 32-bit sum `int_add r f`. -/
theorem raw_to_bg_formula (r f : Int) (hlo : INT_MIN ≤ r + f) (hhi : r + f ≤ INT_MAX) :
    raw_to_bg r f = ((Int.tdiv (r + f) 2 : Int) : ℚ) / 22500 ∧
    2 * Int.tdiv (r + f) 2 = (r + f) - Int.sign (r + f) * ((r + f) % 2) ∧
    (22500 : ℚ) = 1250 * 18 ∧
    raw_to_bg r f = ((Int.tdiv (int_add r f) 2 : Int) : ℚ) / 22500 := by
  refine ⟨?_, ?_, by norm_num, raw_to_bg_def r f⟩
  · rw [raw_to_bg_def, int_add, to_int_of_range _ hlo hhi]
  · rw [tdiv_two]
    rcases Int.lt_trichotomy (r + f) 0 with h | h | h
    · rw [Int.sign_eq_neg_one_of_neg h, if_neg (by omega)]
      omega
    · rw [h]
      decide
    · rw [Int.sign_eq_one_of_pos h, if_pos (by omega)]
      omega

/-- Witness for C1 at `r = 400`, `f = 381` (an odd sum): the value is `390 / 22500`. -/
theorem raw_to_bg_formula_witness :
    (INT_MIN ≤ (400 : Int) + 381 ∧ (400 : Int) + 381 ≤ INT_MAX) ∧
    raw_to_bg 400 381 = 390 / 22500 := by
  refine ⟨by decide, ?_⟩
  have h := (raw_to_bg_formula 400 381 (by decide) (by decide)).1
  rw [h]
  have h2 : Int.tdiv (400 + 381) 2 = 390 := by decide
  rw [h2]
  norm_num

/-! ## The loop of `read_until` -/

lemma read_until_step_next {expected : Char} {buf_len : Nat} {t1 : Int} {st st1 : LoopState}
    {ev : ReadEvent} (h : read_until_step expected buf_len t1 st ev = .next st1) :
    (read_byte st ev).getD st.pos NUL ≠ expected ∧ ev.now - t1 < 370 ∧
    ((∃ c, ev.byte = some c ∧ st1 = ⟨st.pos + 1, 0, read_byte st ev⟩) ∨
     (ev.byte = none ∧ ev.fd_bad = false ∧ st.fail_count + 1 ≤ 5 ∧
      st1 = ⟨st.pos, st.fail_count + 1, read_byte st ev⟩)) := by
  unfold read_until_step at h
  dsimp only at h
  by_cases h1 : (read_byte st ev).getD st.pos NUL = expected
  · rw [if_pos h1] at h
    cases h
  · by_cases h2 : 370 ≤ ev.now - t1
    · rw [if_neg h1, if_pos h2] at h
      cases h
    · rw [if_neg h1, if_neg h2] at h
      refine ⟨h1, by omega, ?_⟩
      cases hb : ev.byte with
      | some c =>
        simp only [hb] at h
        left
        exact ⟨c, rfl, (StepResult.next.inj h).symm⟩
      | none =>
        simp only [hb] at h
        right
        by_cases h3 : ev.fd_bad = true
        · simp [h3] at h
        · by_cases h4 : st.fail_count + 1 > 5
          · simp [h3, h4] at h
          · simp only [h3, h4, if_false] at h
            refine ⟨rfl, by simpa using h3, by omega, (StepResult.next.inj h).symm⟩

lemma read_byte_length (st : LoopState) (ev : ReadEvent) :
    (read_byte st ev).length = st.buffer.length := by
  unfold read_byte
  cases ev.byte <;> simp

lemma read_until_loop_total (expected : Char) (buf_len : Nat) (t1 : Int)
    (env : Nat → ReadEvent) (fuel : Nat) :
    ∀ (i : Nat) (st : LoopState), st.fail_count ≤ 5 →
      6 * (buf_len - st.pos) ≤ fuel + st.fail_count →
      ∃ b, read_until_loop expected buf_len t1 env fuel i st = some b := by
  induction fuel with
  | zero =>
    intro i st hfc hm
    unfold read_until_loop
    have : ¬ st.pos < buf_len := by omega
    simp [this]
  | succ fuel ih =>
    intro i st hfc hm
    unfold read_until_loop
    by_cases hp : st.pos < buf_len
    · simp only [hp, if_true]
      cases hs : read_until_step expected buf_len t1 st (env i) with
      | done b => exact ⟨b, rfl⟩
      | next st1 =>
        simp only []
        obtain ⟨_, _, h | h⟩ := read_until_step_next hs
        · obtain ⟨c, _, rfl⟩ := h
          exact ih (i + 1) _ (by simp) (by simp only []; omega)
        · obtain ⟨_, _, h5, rfl⟩ := h
          exact ih (i + 1) _ (by simpa using h5) (by simp only []; omega)
    · simp [hp]

/-- The loop of `read_until` always terminates: the call returns a buffer. -/
lemma read_until_total (env : Nat → ReadEvent) (t1 : Int) (buffer : List Char)
    (expected : Char) (buf_len : Nat) :
    ∃ b, read_until env t1 buffer expected buf_len = some b := by
  unfold read_until
  exact read_until_loop_total expected buf_len t1 env (6 * buf_len) 0 _ (by simp)
    (by simp)

lemma read_until_state_spec (env : Nat → ReadEvent) (t1 : Int) (buffer : List Char)
    (expected : Char) (buf_len : Nat) (j : Nat) :
    ∀ st, read_until_state env t1 buffer expected buf_len j = some st →
      st.pos < buf_len ∧ st.fail_count ≤ 5 ∧
      6 * (buf_len - st.pos) + j ≤ 6 * buf_len + st.fail_count ∧
      st.buffer.length = buffer.length ∧
      read_until env t1 buffer expected buf_len =
        read_until_loop expected buf_len t1 env (6 * buf_len - j) j st := by
  induction j with
  | zero =>
    intro st h
    unfold read_until_state at h
    by_cases hb : 0 < buf_len
    · simp only [hb, if_true, Option.some.injEq] at h
      subst h
      refine ⟨hb, by simp, by simp, rfl, rfl⟩
    · simp [hb] at h
  | succ j ih =>
    intro st1 h
    unfold read_until_state at h
    cases hj : read_until_state env t1 buffer expected buf_len j with
    | none => simp [hj] at h
    | some st =>
      simp only [hj] at h
      obtain ⟨hp, hfc, hm, hlen, hrun⟩ := ih st hj
      cases hs : read_until_step expected buf_len t1 st (env j) with
      | done b => simp [hs] at h
      | next st2 =>
        simp only [hs] at h
        by_cases hp2 : st2.pos < buf_len
        · simp only [hp2, if_true, Option.some.injEq] at h
          subst h
          have hfuel : 6 * buf_len - j = (6 * buf_len - (j + 1)) + 1 := by omega
          have hrun2 : read_until env t1 buffer expected buf_len =
              read_until_loop expected buf_len t1 env (6 * buf_len - (j + 1)) (j + 1) st2 := by
            rw [hrun, hfuel]
            conv_lhs => unfold read_until_loop
            simp only [hp, if_true, hs]
          obtain ⟨_, _, h | h⟩ := read_until_step_next hs
          · obtain ⟨c, _, rfl⟩ := h
            refine ⟨hp2, by simp, by simp only [] at hp2 ⊢; omega, ?_, hrun2⟩
            simp only [read_byte_length, hlen]
          · obtain ⟨_, _, h5, rfl⟩ := h
            refine ⟨hp2, by simpa using h5, by simp only [] at hp2 ⊢; omega, ?_, hrun2⟩
            simp only [read_byte_length, hlen]
        · simp [hp2] at h

/-- When pass `j` of the loop leaves it with buffer `b`, that is what `read_until`
returns. -/
lemma read_until_of_done {env : Nat → ReadEvent} {t1 : Int} {buffer : List Char}
    {expected : Char} {buf_len : Nat} {j : Nat} {st : LoopState} {b : List Char}
    (hst : read_until_state env t1 buffer expected buf_len j = some st)
    (hs : read_until_step expected buf_len t1 st (env j) = .done b) :
    read_until env t1 buffer expected buf_len = some b := by
  obtain ⟨hp, hfc, hm, _, hrun⟩ := read_until_state_spec env t1 buffer expected buf_len j st hst
  have hfuel : 6 * buf_len - j = (6 * buf_len - (j + 1)) + 1 := by omega
  rw [hrun, hfuel]
  unfold read_until_loop
  simp only [hp, if_true, hs]

lemma memset_zero_full (b : List Char) (n : Nat) (h : b.length = n) :
    memset_zero b n = List.replicate n NUL := by
  unfold memset_zero
  rw [List.drop_eq_nil_of_le (by omega)]
  simp

/-- A failed read that does not end the loop leaves position and buffer alone and raises
the failure counter; the byte at the position is not the delimiter. -/
lemma read_until_state_fail_succ {env : Nat → ReadEvent} {t1 : Int} {buffer : List Char}
    {expected : Char} {buf_len : Nat} {i : Nat} {st1 : LoopState}
    (h : read_until_state env t1 buffer expected buf_len (i + 1) = some st1)
    (hb : (env i).byte = none) :
    ∃ st, read_until_state env t1 buffer expected buf_len i = some st ∧
      st1 = ⟨st.pos, st.fail_count + 1, st.buffer⟩ ∧
      st.buffer.getD st.pos NUL ≠ expected := by
  unfold read_until_state at h
  cases hj : read_until_state env t1 buffer expected buf_len i with
  | none => simp [hj] at h
  | some st =>
    simp only [hj] at h
    cases hs : read_until_step expected buf_len t1 st (env i) with
    | done b => simp [hs] at h
    | next st2 =>
      simp only [hs] at h
      by_cases hp2 : st2.pos < buf_len
      · simp only [hp2, if_true, Option.some.injEq] at h
        subst h
        obtain ⟨hne, _, h | h⟩ := read_until_step_next hs
        · obtain ⟨c, hc, _⟩ := h
          rw [hb] at hc
          cases hc
        · obtain ⟨_, _, _, rfl⟩ := h
          have hrb : read_byte st (env i) = st.buffer := by
            unfold read_byte
            rw [hb]
          rw [hrb] at hne
          exact ⟨st, rfl, by rw [hrb], hne⟩
      · simp [hp2] at h

lemma read_until_state_fail_run {env : Nat → ReadEvent} {t1 : Int} {buffer : List Char}
    {expected : Char} {buf_len : Nat} (j : Nat) :
    ∀ (k : Nat) (st : LoopState),
      read_until_state env t1 buffer expected buf_len (j + k) = some st →
      (∀ i, i < k → (env (j + i)).byte = none) →
      k ≤ st.fail_count ∧ (1 ≤ k → st.buffer.getD st.pos NUL ≠ expected) := by
  intro k
  induction k with
  | zero =>
    intro st _ _
    exact ⟨Nat.zero_le _, fun h => absurd h (by decide)⟩
  | succ k ih =>
    intro st1 h hfail
    obtain ⟨st, hst, rfl, hne⟩ :=
      read_until_state_fail_succ (i := j + k) h (hfail k (Nat.lt_succ_self k))
    have := (ih st hst (fun i hi => hfail i (Nat.lt_succ_of_lt hi))).1
    exact ⟨by simp only []; omega, fun _ => hne⟩

lemma read_until_state_fail_keep {env : Nat → ReadEvent} {t1 : Int} {buffer : List Char}
    {expected : Char} {buf_len : Nat} (j : Nat) (st : LoopState)
    (hst : read_until_state env t1 buffer expected buf_len j = some st)
    (hne : st.buffer.getD st.pos NUL ≠ expected) :
    ∀ (k : Nat), st.fail_count + k ≤ 5 →
      (∀ i, i < k → (env (j + i)).byte = none ∧ (env (j + i)).fd_bad = false ∧
        (env (j + i)).now - t1 < 370) →
      read_until_state env t1 buffer expected buf_len (j + k) =
        some ⟨st.pos, st.fail_count + k, st.buffer⟩ := by
  intro k
  induction k with
  | zero =>
    intro _ _
    simpa using hst
  | succ k ih =>
    intro h5 henv
    have hk := ih (by omega) (fun i hi => henv i (Nat.lt_succ_of_lt hi))
    obtain ⟨hb, hfd, hnow⟩ := henv k (Nat.lt_succ_self k)
    have hp := (read_until_state_spec env t1 buffer expected buf_len j st hst).1
    have hstep : read_until_step expected buf_len t1 ⟨st.pos, st.fail_count + k, st.buffer⟩
        (env (j + k)) = .next ⟨st.pos, st.fail_count + (k + 1), st.buffer⟩ := by
      unfold read_until_step
      have hrb : read_byte ⟨st.pos, st.fail_count + k, st.buffer⟩ (env (j + k)) = st.buffer := by
        unfold read_byte
        rw [hb]
      dsimp only
      rw [hrb, if_neg hne, if_neg (by omega), hb]
      dsimp only
      rw [hfd]
      simp only [Bool.false_eq_true, if_false]
      rw [if_neg (by omega)]
      rfl
    show read_until_state env t1 buffer expected buf_len (j + k + 1) = _
    unfold read_until_state
    rw [hk]
    dsimp only
    rw [hstep]
    dsimp only
    rw [if_pos hp]

/-! ## C7: the deadline -/

/-- C7. Whenever the deadline test of some pass of `read_until` is executed and observes
that at least 370 seconds have elapsed since the call started, `read_until` returns the
buffer with all its `buf_len` bytes zero, whatever had been accumulated before.  (No
condition on the read results is needed: the test is only executed when the byte at the
current position is not the delimiter.) -/
theorem read_until_deadline_zeroes (env : Nat → ReadEvent) (t1 : Int) (buffer : List Char)
    (expected : Char) (buf_len j : Nat) (d : Int) (hlen : buffer.length = buf_len)
    (hchk : deadline_check env t1 buffer expected buf_len j = some d) (hd : 370 ≤ d) :
    read_until env t1 buffer expected buf_len = some (List.replicate buf_len NUL) := by
  unfold deadline_check at hchk
  cases hst : read_until_state env t1 buffer expected buf_len j with
  | none => simp [hst] at hchk
  | some st =>
    simp only [hst] at hchk
    by_cases h1 : (read_byte st (env j)).getD st.pos NUL = expected
    · rw [if_pos h1] at hchk
      cases hchk
    · rw [if_neg h1] at hchk
      have hd2 : 370 ≤ (env j).now - t1 := by
        have := Option.some.inj hchk
        omega
      have hstep : read_until_step expected buf_len t1 st (env j) =
          .done (memset_zero (read_byte st (env j)) buf_len) := by
        unfold read_until_step
        dsimp only
        rw [if_neg h1, if_pos hd2]
      have hl := (read_until_state_spec env t1 buffer expected buf_len j st hst).2.2.2.1
      rw [read_until_of_done hst hstep, memset_zero_full]
      rw [read_byte_length, hl, hlen]

/-- Witness for C7: three bytes are accumulated, then the fourth read arrives 370 seconds
after the start; the ten bytes of the buffer come back zero. -/
theorem read_until_deadline_zeroes_witness :
    deadline_check (fun i => ⟨some 'a', if i < 3 then 5 else 370, false⟩) 0
      (List.replicate 10 NUL) '\n' 10 3 = some 370 ∧
    read_until (fun i => ⟨some 'a', if i < 3 then 5 else 370, false⟩) 0
      (List.replicate 10 NUL) '\n' 10 = some (List.replicate 10 NUL) :=
  ⟨by decide,
   read_until_deadline_zeroes _ 0 (List.replicate 10 NUL) '\n' 10 3 370 (by decide)
     (by decide) (by decide)⟩

/-! ## C8: consecutive read failures -/

/-- C8. In `read_until`: (1) when the loop goes on after a successful read, the failure
counter is zero and the position has advanced; (2) if six consecutive reads (passes
`j .. j+5`) are non-positive and the loop is still running when the sixth is made, the
call returns with the whole buffer zeroed, whatever the clock says and whatever was
accumulated; (3) while a run of failed reads on a valid handle before the deadline keeps
the counter at 5 or less, the loop is still running with position and buffer
untouched. -/
theorem read_until_failure_threshold :
    (∀ (expected : Char) (buf_len : Nat) (t1 : Int) (st st1 : LoopState) (ev : ReadEvent),
      ev.byte ≠ none → read_until_step expected buf_len t1 st ev = .next st1 →
      st1.fail_count = 0 ∧ st1.pos = st.pos + 1) ∧
    (∀ (env : Nat → ReadEvent) (t1 : Int) (buffer : List Char) (expected : Char)
      (buf_len j : Nat), buffer.length = buf_len →
      (∀ k, k ≤ 5 → (env (j + k)).byte = none) →
      (read_until_state env t1 buffer expected buf_len (j + 5)).isSome = true →
      read_until env t1 buffer expected buf_len = some (List.replicate buf_len NUL)) ∧
    (∀ (env : Nat → ReadEvent) (t1 : Int) (buffer : List Char) (expected : Char)
      (buf_len j k : Nat) (st : LoopState),
      read_until_state env t1 buffer expected buf_len j = some st →
      st.buffer.getD st.pos NUL ≠ expected → st.fail_count + k ≤ 5 →
      (∀ i, i < k → (env (j + i)).byte = none ∧ (env (j + i)).fd_bad = false ∧
        (env (j + i)).now - t1 < 370) →
      read_until_state env t1 buffer expected buf_len (j + k) =
        some ⟨st.pos, st.fail_count + k, st.buffer⟩) := by
  refine ⟨?_, ?_, ?_⟩
  · intro expected buf_len t1 st st1 ev hb hs
    obtain ⟨_, _, h | h⟩ := read_until_step_next hs
    · obtain ⟨c, _, rfl⟩ := h
      exact ⟨rfl, rfl⟩
    · exact absurd h.1 hb
  · intro env t1 buffer expected buf_len j hlen hfail hrun
    cases hst : read_until_state env t1 buffer expected buf_len (j + 5) with
    | none => simp [hst] at hrun
    | some st =>
      obtain ⟨hfc, hne⟩ := read_until_state_fail_run j 5 st hst
        (fun i hi => hfail i (Nat.le_of_lt hi))
      have hb : (env (j + 5)).byte = none := hfail 5 (Nat.le_refl 5)
      have hrb : read_byte st (env (j + 5)) = st.buffer := by
        unfold read_byte
        rw [hb]
      have hstep : read_until_step expected buf_len t1 st (env (j + 5)) =
          .done (memset_zero st.buffer buf_len) := by
        unfold read_until_step
        dsimp only
        rw [hrb, if_neg (hne (by decide))]
        by_cases hd : 370 ≤ (env (j + 5)).now - t1
        · rw [if_pos hd]
        · rw [if_neg hd, hb]
          dsimp only
          by_cases hfd : (env (j + 5)).fd_bad = true
          · rw [if_pos hfd]
          · rw [if_neg hfd, if_pos (by omega)]
      have hl := (read_until_state_spec env t1 buffer expected buf_len (j + 5) st hst).2.2.2.1
      rw [read_until_of_done hst hstep, memset_zero_full]
      rw [hl, hlen]
  · intro env t1 buffer expected buf_len j k st hst hne h5 henv
    exact read_until_state_fail_keep j st hst hne k h5 henv

/-- Witness for C8: two bytes arrive, then six reads in a row fail (clock and handle
are fine): the buffer comes back zeroed, and after the fifth failure the loop is still
running at position 2 with both bytes in place. -/
theorem read_until_failure_threshold_witness :
    read_until (fun i => ⟨if i < 2 then some 'a' else none, 0, false⟩) 0
      (List.replicate 10 NUL) '\n' 10 = some (List.replicate 10 NUL) ∧
    read_until_state (fun i => ⟨if i < 2 then some 'a' else none, 0, false⟩) 0
      (List.replicate 10 NUL) '\n' 10 (2 + 5) =
      some ⟨2, 0 + 5, 'a' :: 'a' :: List.replicate 8 NUL⟩ :=
  ⟨read_until_failure_threshold.2.1 _ 0 (List.replicate 10 NUL) '\n' 10 2 (by decide)
     (by decide) (by decide),
   read_until_failure_threshold.2.2 (fun i => ⟨if i < 2 then some 'a' else none, 0, false⟩) 0
     (List.replicate 10 NUL) '\n' 10 2 5 ⟨2, 0, 'a' :: 'a' :: List.replicate 8 NUL⟩
     (by decide) (by decide) (by decide) (by decide)⟩

/-! ## C6: what `read_until` leaves in the buffer -/

lemma read_until_step_done {expected : Char} {buf_len : Nat} {t1 : Int} {st : LoopState}
    {ev : ReadEvent} {b : List Char}
    (h : read_until_step expected buf_len t1 st ev = .done b) :
    ((read_byte st ev).getD st.pos NUL = expected ∧ b = read_byte st ev) ∨
    b = memset_zero (read_byte st ev) buf_len := by
  unfold read_until_step at h
  dsimp only at h
  by_cases h1 : (read_byte st ev).getD st.pos NUL = expected
  · rw [if_pos h1] at h
    exact Or.inl ⟨h1, (StepResult.done.inj h).symm⟩
  · right
    by_cases h2 : 370 ≤ ev.now - t1
    · rw [if_neg h1, if_pos h2] at h
      exact (StepResult.done.inj h).symm
    · rw [if_neg h1, if_neg h2] at h
      cases hb : ev.byte with
      | some c =>
        simp only [hb] at h
        cases h
      | none =>
        simp only [hb] at h
        by_cases h3 : ev.fd_bad = true
        · rw [if_pos h3] at h
          exact (StepResult.done.inj h).symm
        · by_cases h4 : st.fail_count + 1 > 5
          · rw [if_neg h3, if_pos h4] at h
            exact (StepResult.done.inj h).symm
          · rw [if_neg h3, if_neg h4] at h
            cases h

lemma delivered_succ (env : Nat → ReadEvent) (i : Nat) :
    delivered env (i + 1) = delivered env i ++ (env i).byte.toList := by
  unfold delivered
  rw [List.range_succ, List.filterMap_append]
  cases hb : (env i).byte <;> simp [List.filterMap_cons, hb]

lemma read_byte_shape (D : List Char) (st : LoopState) (ev : ReadEvent) (n : Nat)
    (hD : D.length = st.pos) (hp : st.pos < n)
    (hbuf : st.buffer = D ++ List.replicate (n - st.pos) NUL) :
    read_byte st ev = D ++ ev.byte.getD NUL :: List.replicate (n - st.pos - 1) NUL ∧
    (read_byte st ev).getD st.pos NUL = ev.byte.getD NUL := by
  have hn : n - st.pos = (n - st.pos - 1) + 1 := by omega
  have hshape : read_byte st ev =
      D ++ ev.byte.getD NUL :: List.replicate (n - st.pos - 1) NUL := by
    unfold read_byte
    rw [hbuf, hn, List.replicate_succ]
    cases ev.byte with
    | some c => simp [List.set_append, hD]
    | none => simp
  refine ⟨hshape, ?_⟩
  rw [hshape, ← hD, List.getD_eq_getElem?_getD, List.getElem?_append_right (Nat.le_refl _)]
  simp

lemma read_until_loop_frame (expected : Char) (n : Nat) (t1 : Int) (env : Nat → ReadEvent)
    (fuel : Nat) :
    ∀ (i : Nat) (st : LoopState), st.fail_count ≤ 5 →
      6 * (n - st.pos) ≤ fuel + st.fail_count → st.pos ≤ n →
      (delivered env i).length = st.pos → expected ∉ delivered env i →
      st.buffer = delivered env i ++ List.replicate (n - st.pos) NUL →
      ∃ b, read_until_loop expected n t1 env fuel i st = some b ∧
        (b = List.replicate n NUL ∨ frame_complete env expected n b ∨
          frame_exhausted env expected n b) := by
  have hexit : ∀ (i : Nat) (st : LoopState), ¬ st.pos < n → st.pos ≤ n →
      (delivered env i).length = st.pos → expected ∉ delivered env i →
      st.buffer = delivered env i ++ List.replicate (n - st.pos) NUL →
      frame_exhausted env expected n st.buffer := by
    intro i st hp hle hD hne hbuf
    refine ⟨i, by omega, hne, ?_⟩
    rw [hbuf, show n - st.pos = 0 by omega]
    simp
  induction fuel with
  | zero =>
    intro i st hfc hm hle hD hne hbuf
    have hp : ¬ st.pos < n := by omega
    refine ⟨st.buffer, ?_, Or.inr (Or.inr (hexit i st hp hle hD hne hbuf))⟩
    unfold read_until_loop
    simp [hp]
  | succ fuel ih =>
    intro i st hfc hm hle hD hne hbuf
    by_cases hp : st.pos < n
    · obtain ⟨hshape, hget⟩ := read_byte_shape _ st (env i) n hD hp hbuf
      have hlen : (read_byte st (env i)).length = n := by
        rw [read_byte_length, hbuf]
        simp only [List.length_append, List.length_replicate]
        omega
      unfold read_until_loop
      simp only [hp, if_true]
      cases hs : read_until_step expected n t1 st (env i) with
      | done b =>
        refine ⟨b, rfl, ?_⟩
        rcases read_until_step_done hs with ⟨h1, rfl⟩ | rfl
        · right
          left
          refine ⟨i, by omega, hne, ?_⟩
          rw [hshape, ← h1, hget, hD]
        · left
          exact memset_zero_full _ _ hlen
      | next st1 =>
        simp only []
        obtain ⟨h1, _, h | h⟩ := read_until_step_next hs
        · obtain ⟨c, hc, rfl⟩ := h
          have hds : delivered env (i + 1) = delivered env i ++ [c] := by
            rw [delivered_succ, hc]
            rfl
          rw [hget, hc] at h1
          refine ih (i + 1) _ (by simp) (by simp only []; omega) (by simp only []; omega)
            (by rw [hds]; simp [hD]) ?_ ?_
          · rw [hds]
            simp only [List.mem_append, List.mem_singleton, not_or]
            exact ⟨hne, fun h => h1 (by simpa using h.symm)⟩
          · simp only []
            rw [hshape, hds, hc]
            simp [Nat.sub_sub]
        · obtain ⟨hb, _, h5, rfl⟩ := h
          have hds : delivered env (i + 1) = delivered env i := by
            rw [delivered_succ, hb]
            simp
          have hrb : read_byte st (env i) = st.buffer := by
            unfold read_byte
            rw [hb]
          refine ih (i + 1) _ (by simpa using h5) (by simp only []; omega) hle
            (by rw [hds]; exact hD) (by rw [hds]; exact hne) ?_
          simp only []
          rw [hrb, hds]
          exact hbuf
    · refine ⟨st.buffer, ?_, Or.inr (Or.inr (hexit i st hp hle hD hne hbuf))⟩
      unfold read_until_loop
      simp [hp]

/-- C6 (as amended). For every zero-initialised buffer of capacity `n`, every delimiter
and every stream of read results, clock readings and handle checks, `read_until` returns,
and the buffer it leaves is entirely zero, or complete (the delivered bytes in order, the
delimiter, the untouched zero bytes), or filled to capacity with `n` delivered bytes none
of which is the delimiter. -/
theorem read_until_frame_shape (env : Nat → ReadEvent) (t1 : Int) (expected : Char)
    (n : Nat) :
    ∃ b, read_until env t1 (List.replicate n NUL) expected n = some b ∧
      (b = List.replicate n NUL ∨ frame_complete env expected n b ∨
        frame_exhausted env expected n b) := by
  unfold read_until
  exact read_until_loop_frame expected n t1 env (6 * n) 0 _ (by simp) (by simp) (by simp)
    (by simp [delivered]) (by simp [delivered]) (by simp [delivered])

/-- Counterexample to C6 as stated: with capacity 2 and delimiter newline, a device that
delivers `a`, `b` leaves the buffer `ab`, which is neither zero-filled nor complete: it
holds two bytes of an unterminated frame. -/
theorem read_until_frame_counterexample :
    ∃ b, read_until (deliver ['a', 'b'] 0) 0 (List.replicate 2 NUL) '\n' 2 = some b ∧
      b = ['a', 'b'] ∧
      ¬ (frame_complete (deliver ['a', 'b'] 0) '\n' 2 b ∨ b = List.replicate 2 NUL) := by
  refine ⟨['a', 'b'], by decide, rfl, ?_⟩
  rintro (⟨j, _, _, hb⟩ | hb)
  · have hmem : '\n' ∈ ['a', 'b'] := by
      rw [hb]
      simp
    exact absurd hmem (by decide)
  · exact absurd hb (by decide)

/-! ## C2: the zero sentinel -/

lemma read_wixel_build_eq_none (values : List Int) (ts : String) :
    read_wixel_build values ts = none ↔
      Int.tdiv (int_add (values.getD 1 0) (values.getD 2 0)) 2 = 0 := by
  unfold read_wixel_build
  dsimp only
  rw [← raw_to_bg_eq_zero_iff]
  by_cases h : raw_to_bg (values.getD 1 0) (values.getD 2 0) = 0
  · simp only [h, if_true]
  · simp only [h, if_false]
    simp

lemma read_wixel_frame_eq_none (buf : List Char) (ts : String) :
    read_wixel_frame buf ts = .ok none ↔
      ∃ values, read_wixel_parse buf = .ok values ∧
        Int.tdiv (int_add (values.getD 1 0) (values.getD 2 0)) 2 = 0 := by
  unfold read_wixel_frame
  cases hp : read_wixel_parse buf with
  | error e => simp
  | ok values =>
    simp only [Except.ok.injEq, exists_eq_left']
    exact read_wixel_build_eq_none values ts

lemma read_until_zero_line :
    read_until (deliver "1 0 1 50 30 9\n".toList 0) 0 (List.replicate 100 NUL) '\n' 100 =
      some ("1 0 1 50 30 9\n".toList ++ List.replicate 86 NUL) := by
  decide

lemma read_until_saturating_line :
    read_until (deliver "1 9223372036854775808 2 50 30 9\n".toList 0) 0
      (List.replicate 100 NUL) '\n' 100 =
      some ("1 9223372036854775808 2 50 30 9\n".toList ++ List.replicate 68 NUL) := by
  decide

lemma read_wixel_parse_saturating_line :
    read_wixel_parse ("1 9223372036854775808 2 50 30 9\n".toList ++ List.replicate 68 NUL) =
      .ok [1, -1, 2, 50, 30, 9, 0, 0] := by
  decide

lemma read_wixel_parse_zero_line :
    read_wixel_parse ("1 0 1 50 30 9\n".toList ++ List.replicate 86 NUL) =
      .ok [1, 0, 1, 50, 30, 9, 0, 0] := by
  decide

/-- C2. For every frame, `read_wixel` yields `NULL` instead of a reading exactly when the
frame parses and `(raw + filtered) / 2 == 0` in C int arithmetic, `raw` and `filtered`
being the parsed second and third fields; and that is exactly when
`raw_to_bg(raw, filtered) == 0.0` (when the sum does not overflow: when it lies between
-1 and 1).  This covers `raw = 0, filtered = 0`,
`raw = 1, filtered = -2` and the line `"1 0 1 50 30 9\n"`.  The parsed fields are those of
the libc `atoi`: on the line `"1 9223372036854775808 2 50 30 9\n"` the second field
saturates and is parsed as -1, so `(-1 + 2) / 2 == 0` and `read_wixel` yields `NULL`. -/
theorem read_wixel_null_iff :
    (∀ (env : Nat → ReadEvent) (t1 : Int) (ts : String),
      read_wixel env t1 ts = .ok none ↔
        ∃ buf values, read_until env t1 (List.replicate 100 NUL) '\n' 100 = some buf ∧
          read_wixel_parse buf = .ok values ∧
          Int.tdiv (int_add (values.getD 1 0) (values.getD 2 0)) 2 = 0) ∧
    (∀ r f : Int, Int.tdiv (int_add r f) 2 = 0 ↔ raw_to_bg r f = 0) ∧
    (∀ r f : Int, INT_MIN ≤ r + f → r + f ≤ INT_MAX →
      (raw_to_bg r f = 0 ↔ -1 ≤ r + f ∧ r + f ≤ 1)) ∧
    (∀ (values : List Int) (ts : String), values.getD 1 0 = 0 → values.getD 2 0 = 0 →
      read_wixel_build values ts = none) ∧
    (∀ (values : List Int) (ts : String), values.getD 1 0 = 1 → values.getD 2 0 = -2 →
      read_wixel_build values ts = none) ∧
    (∀ ts : String, read_wixel (deliver "1 0 1 50 30 9\n".toList 0) 0 ts = .ok none) ∧
    (atoi "9223372036854775808".toList = -1 ∧ atoi "100000000000000000000".toList = -1 ∧
      ∀ ts : String,
        read_wixel (deliver "1 9223372036854775808 2 50 30 9\n".toList 0) 0 ts = .ok none) := by
  refine ⟨?_, fun r f => (raw_to_bg_eq_zero_iff r f).symm, ?_, ?_, ?_, ?_,
    by decide, by decide, ?_⟩
  rotate_left
  · intro r f hlo hhi
    rw [raw_to_bg_eq_zero_iff, int_add, to_int_of_range _ hlo hhi, tdiv_two_eq_zero_iff]
  rotate_right
  · intro env t1 ts
    unfold read_wixel
    cases hr : read_until env t1 (List.replicate 100 NUL) '\n' 100 with
    | none => simp
    | some buf =>
      simp only [Option.some.injEq, exists_and_left, exists_eq_left']
      exact read_wixel_frame_eq_none buf ts
  · intro values ts h1 h2
    rw [read_wixel_build_eq_none, h1, h2]
    decide
  · intro values ts h1 h2
    rw [read_wixel_build_eq_none, h1, h2]
    decide
  · intro ts
    unfold read_wixel
    rw [read_until_zero_line]
    dsimp only
    rw [read_wixel_frame_eq_none]
    exact ⟨_, read_wixel_parse_zero_line, by decide⟩
  · intro ts
    unfold read_wixel
    rw [read_until_saturating_line]
    dsimp only
    rw [read_wixel_frame_eq_none]
    exact ⟨_, read_wixel_parse_saturating_line, by decide⟩

/-! ## C4: the upload condition of the main loop -/

/-- C4. In a cycle of the main loop `upload_data` is called, with the reading `d`, exactly
when `read_wixel` returned `d`, `upload_to_cloud == 1` and `d.bg_value > 0`; hence after
`read_wixel` on any frame, an upload implies that the measurement of the parsed raw and
filtered values is strictly positive: a zero or negative measurement is never
uploaded. -/
theorem main_cycle_upload_iff :
    (∀ (data : Option sensor_data_t) (upload_to_cloud : Int) (d : sensor_data_t),
      Action.upload_data d ∈ main_cycle data upload_to_cloud ↔
        (data = some d ∧ upload_to_cloud = 1 ∧ d.bg_value > 0)) ∧
    (∀ (buf : List Char) (ts : String) (data : Option sensor_data_t) (upload_to_cloud : Int)
      (d : sensor_data_t), read_wixel_frame buf ts = .ok data →
      Action.upload_data d ∈ main_cycle data upload_to_cloud →
      d.bg_value = raw_to_bg d.raw_value d.filtered_value ∧
      0 < raw_to_bg d.raw_value d.filtered_value) := by
  have h1 : ∀ (data : Option sensor_data_t) (upload_to_cloud : Int) (d : sensor_data_t),
      Action.upload_data d ∈ main_cycle data upload_to_cloud ↔
        (data = some d ∧ upload_to_cloud = 1 ∧ d.bg_value > 0) := by
    intro data utc d
    unfold main_cycle
    cases data with
    | none => simp
    | some e =>
      by_cases hc : utc = 1 ∧ e.bg_value > 0
      · simp only [if_pos hc]
        constructor
        · intro h
          simp at h
          subst h
          exact ⟨rfl, hc⟩
        · rintro ⟨h, -⟩
          cases h
          simp
      · simp only [if_neg hc]
        constructor
        · intro h
          simp at h
        · rintro ⟨h, h2⟩
          cases h
          exact absurd h2 hc
  refine ⟨h1, ?_⟩
  intro buf ts data utc d hframe hup
  obtain ⟨rfl, -, hpos⟩ := (h1 data utc d).mp hup
  unfold read_wixel_frame at hframe
  cases hp : read_wixel_parse buf with
  | error e => simp [hp] at hframe
  | ok values =>
    simp only [hp, Except.ok.injEq] at hframe
    unfold read_wixel_build at hframe
    dsimp only at hframe
    by_cases hz : raw_to_bg (values.getD 1 0) (values.getD 2 0) = 0
    · rw [if_pos hz] at hframe
      cases hframe
    · simp only [hz, if_false, Option.some.injEq] at hframe
      subst hframe
      exact ⟨rfl, hpos⟩

/-- Witness for C4: the reading of the frame `7 400 380 90 40 123` is uploaded when
uploads are switched on. -/
theorem main_cycle_upload_iff_witness :
    Action.upload_data ⟨"ts", 0, 7, 400, 380, 90, 40, 123, raw_to_bg 400 380⟩ ∈
      main_cycle (some ⟨"ts", 0, 7, 400, 380, 90, 40, 123, raw_to_bg 400 380⟩) 1 :=
  (main_cycle_upload_iff.1 _ 1 _).mpr
    ⟨rfl, rfl, (raw_to_bg_pos_iff 400 380).mpr (by decide)⟩

/-! ## C5: the return value of `upload_data` -/

/-- C5 (as amended). The return value of `upload_data` is fixed by the library results as
follows: 1 when no curl handle could be made; otherwise 2 when the transfer failed or the
response body is empty (one and the same value for both); otherwise 3 when the payload
pointer is null; otherwise 4 when the body does not parse as JSON; otherwise 0.  The five
cases are exclusive and cover every combination. -/
theorem upload_data_classes (w : UploadWorld) :
    (upload_data w = 1 ↔ w.curl_handle = false) ∧
    (upload_data w = 2 ↔ w.curl_handle = true ∧ (w.result_code ≠ 0 ∨ w.size = 0)) ∧
    (upload_data w = 3 ↔ w.curl_handle = true ∧ w.result_code = 0 ∧ 1 ≤ w.size ∧
      w.payload_present = false) ∧
    (upload_data w = 4 ↔ w.curl_handle = true ∧ w.result_code = 0 ∧ 1 ≤ w.size ∧
      w.payload_present = true ∧ w.jerr ≠ 0) ∧
    (upload_data w = 0 ↔ w.curl_handle = true ∧ w.result_code = 0 ∧ 1 ≤ w.size ∧
      w.payload_present = true ∧ w.jerr = 0) ∧
    (upload_data w = 0 ∨ upload_data w = 1 ∨ upload_data w = 2 ∨ upload_data w = 3 ∨
      upload_data w = 4) := by
  obtain ⟨h, rc, sz, pp, je⟩ := w
  unfold upload_data
  dsimp only
  cases h <;> cases pp <;> by_cases h1 : rc = 0 <;> by_cases h2 : sz = 0 <;>
    by_cases h3 : je = 0 <;> simp [h1, h2, h3] <;> omega

/-- Counterexample to C5 as stated: there are no four pairwise distinct result values
such that (with a curl handle and a payload) a transport failure gives the first, an empty
body after a successful transfer the second, an unparsable non-empty body the third and
anything else the fourth: a refused connection (`CURLcode` 7) and an empty body both make
`upload_data` return 2. -/
theorem upload_data_outcomes_counterexample :
    (upload_data ⟨true, 7, 0, true, 0⟩ = 2 ∧ upload_data ⟨true, 0, 0, true, 0⟩ = 2) ∧
    ¬ ∃ TransportError EmptyResponse ResponseParseError Success : Int,
      TransportError ≠ EmptyResponse ∧ TransportError ≠ ResponseParseError ∧
      TransportError ≠ Success ∧ EmptyResponse ≠ ResponseParseError ∧
      EmptyResponse ≠ Success ∧ ResponseParseError ≠ Success ∧
      ∀ w : UploadWorld, w.curl_handle = true → w.payload_present = true →
        (w.result_code ≠ 0 → upload_data w = TransportError) ∧
        (w.result_code = 0 → w.size = 0 → upload_data w = EmptyResponse) ∧
        (w.result_code = 0 → 0 < w.size → w.jerr ≠ 0 → upload_data w = ResponseParseError) ∧
        (w.result_code = 0 → 0 < w.size → w.jerr = 0 → upload_data w = Success) := by
  refine ⟨⟨by decide, by decide⟩, ?_⟩
  rintro ⟨vT, vE, vP, vS, hTE, -, -, -, -, -, h⟩
  have h1 := (h ⟨true, 7, 0, true, 0⟩ rfl rfl).1 (by decide)
  have h2 := (h ⟨true, 0, 0, true, 0⟩ rfl rfl).2.1 rfl rfl
  exact hTE (h1.symm.trans h2)

/-! ## C9: more tokens than `values` has room for -/

lemma read_until_nine_tokens :
    read_until (deliver "1 2 3 4 5 6 7 8 9\n".toList 0) 0 (List.replicate 100 NUL) '\n' 100 =
      some ("1 2 3 4 5 6 7 8 9\n".toList ++ List.replicate 82 NUL) := by
  decide

lemma read_until_hundred_bytes :
    read_until (fun _ => ⟨some '1', 0, false⟩) 0 (List.replicate 100 NUL) '\n' 100 =
      some (List.replicate 100 '1') := by
  decide

/-- C9 fails on the code. A frame of nine tokens, `"1 2 3 4 5 6 7 8 9\n"`, is returned by
`read_until` as it stands, and the parse of `read_wixel` then stores the ninth value at
`values[8]`, past the end of `int values[8]`; a frame of 100 bytes without a newline
fills `buf` completely, so the scan of `strtok` runs past the end of `buf`. -/
theorem read_wixel_token_overflow (ts : String) :
    read_wixel (deliver "1 2 3 4 5 6 7 8 9\n".toList 0) 0 ts =
      .error Fault.values_overflow ∧
    read_wixel (fun _ => ⟨some '1', 0, false⟩) 0 ts = .error Fault.unterminated_buffer := by
  constructor
  · unfold read_wixel
    rw [read_until_nine_tokens]
    have hp : read_wixel_parse ("1 2 3 4 5 6 7 8 9\n".toList ++ List.replicate 82 NUL) =
        .error Fault.values_overflow := by decide
    simp only [read_wixel_frame, hp]
  · unfold read_wixel
    rw [read_until_hundred_bytes]
    have hp : read_wixel_parse (List.replicate 100 '1') =
        .error Fault.unterminated_buffer := by decide
    simp only [read_wixel_frame, hp]

/-! ## C10: `find_wixel` when no device file exists -/

/-- C10 fails on the code in its second half. For connection kind `"usb"`: when candidate
`k` is the lowest-numbered one that exists and `open` gives a non-zero descriptor,
`find_wixel` returns that descriptor; but when none of the four candidates exists (at any
of the four passes), `find_wixel` returns 0, which is not the failure value -1 that its own
test `wixel != -1` looks for, and it goes on to configure descriptor 0 as the serial
port. -/
theorem find_wixel_usb :
    (∀ (w : DeviceWorld) (k : Nat) (fd : Int), k < 4 →
      (∀ i, i < k → w.access_ok 0 (usb_candidate i) = false) →
      w.access_ok 0 (usb_candidate k) = true → w.open_fd 0 (usb_candidate k) = fd → fd ≠ 0 →
      find_wixel w "usb" = some ⟨fd, fd != -1⟩) ∧
    (∀ (w : DeviceWorld), (∀ attempt i, i < 4 → w.access_ok attempt (usb_candidate i) = false) →
      find_wixel w "usb" = some ⟨0, true⟩) := by
  have hs : ¬ ("usb" = "serial") := by decide
  constructor
  · intro w k fd hk hlow hex hopen hfd
    have hprobe : find_wixel_probe w "usb" 0 0 = fd := by
      unfold find_wixel_probe
      rw [if_neg hs, if_pos rfl]
      interval_cases k <;> simp only [usb_candidate] at hex hopen
      · rw [if_pos hex]
        exact hopen
      · rw [if_neg (by simpa [usb_candidate] using hlow 0 (by decide)), if_pos hex]
        exact hopen
      · rw [if_neg (by simpa [usb_candidate] using hlow 0 (by decide)),
          if_neg (by simpa [usb_candidate] using hlow 1 (by decide)), if_pos hex]
        exact hopen
      · rw [if_neg (by simpa [usb_candidate] using hlow 0 (by decide)),
          if_neg (by simpa [usb_candidate] using hlow 1 (by decide)),
          if_neg (by simpa [usb_candidate] using hlow 2 (by decide)), if_pos hex]
        exact hopen
    unfold find_wixel
    have hloop : find_wixel_loop w "usb" 4 3 0 0 = some fd := by
      unfold find_wixel_loop
      rw [if_pos (by decide), hprobe]
      unfold find_wixel_loop
      rw [if_neg (by simp [hfd])]
    rw [hloop]
  · intro w hnone
    have hprobe : ∀ attempt, find_wixel_probe w "usb" attempt 0 = 0 := by
      intro attempt
      unfold find_wixel_probe
      rw [if_neg hs, if_pos rfl,
        if_neg (by simpa [usb_candidate] using hnone attempt 0 (by decide)),
        if_neg (by simpa [usb_candidate] using hnone attempt 1 (by decide)),
        if_neg (by simpa [usb_candidate] using hnone attempt 2 (by decide)),
        if_neg (by simpa [usb_candidate] using hnone attempt 3 (by decide))]
    unfold find_wixel
    have hloop : find_wixel_loop w "usb" 4 3 0 0 = some 0 := by
      unfold find_wixel_loop
      rw [if_pos (by decide), hprobe]
      unfold find_wixel_loop
      rw [if_pos (by decide), hprobe]
      unfold find_wixel_loop
      rw [if_pos (by decide), hprobe]
      unfold find_wixel_loop
      rw [if_pos (by decide), hprobe]
      unfold find_wixel_loop
      rw [if_neg (by decide)]
    rw [hloop]
    rfl

/-- Witness for C10: with no device file at all `find_wixel "usb"` returns descriptor 0,
configured; with only `/dev/ttyACM2` present and `open` giving 5 it returns 5. -/
theorem find_wixel_usb_witness :
    find_wixel ⟨fun _ _ => false, fun _ _ => 5⟩ "usb" = some ⟨0, true⟩ ∧
    find_wixel ⟨fun _ p => p = "/dev/ttyACM2", fun _ _ => 5⟩ "usb" = some ⟨5, true⟩ :=
  ⟨find_wixel_usb.2 ⟨fun _ _ => false, fun _ _ => 5⟩ (fun _ _ _ => rfl),
   find_wixel_usb.1 ⟨fun _ p => p = "/dev/ttyACM2", fun _ _ => 5⟩ 2 5 (by decide)
     (by decide) (by decide) rfl (by decide)⟩

/-! ## C3: a well-formed line -/

lemma digitChar_spec : ∀ d, d < 10 →
    (Nat.digitChar d).isDigit = true ∧ (Nat.digitChar d).toNat - 48 = d := by
  decide

lemma atoi_digits_cons (acc : Nat) (c : Char) (cs : List Char) (h : c.isDigit = true) :
    atoi_digits acc (c :: cs) = atoi_digits (acc * 10 + (c.toNat - 48)) cs := by
  simp [atoi_digits, h]

lemma atoi_digits_stop (acc : Nat) (tail : List Char)
    (h : ∀ c, tail.head? = some c → c.isDigit = false) : atoi_digits acc tail = acc := by
  cases tail with
  | nil => rfl
  | cons c cs =>
    have hc := h c rfl
    simp [atoi_digits, hc]

lemma toDigitsCore_spec (fuel : Nat) : ∀ (n : Nat) (ds : List Char), n < fuel →
    ∃ l, Nat.toDigitsCore 10 fuel n ds = l ++ ds ∧ l ≠ [] ∧
      (∀ c ∈ l, c.isDigit = true) ∧
      (∀ acc tail, atoi_digits acc (l ++ tail) = atoi_digits (acc * 10 ^ l.length + n) tail) ∧
      (∀ k, 1 ≤ k → n < 10 ^ k → l.length ≤ k) := by
  induction fuel with
  | zero =>
    intro n ds hn
    exact absurd hn (Nat.not_lt_zero n)
  | succ fuel ih =>
    intro n ds hn
    have hd := digitChar_spec (n % 10) (Nat.mod_lt n (by decide))
    by_cases h0 : n / 10 = 0
    · refine ⟨[Nat.digitChar (n % 10)], ?_, by simp, ?_, ?_, ?_⟩
      · simp [Nat.toDigitsCore, h0]
      · intro c hc
        rw [List.mem_singleton] at hc
        rw [hc]
        exact hd.1
      · intro acc tail
        have hn10 : n % 10 = n := by omega
        rw [List.singleton_append, atoi_digits_cons _ _ _ hd.1, hd.2, hn10]
        simp
      · intro k hk _
        simpa using hk
    · obtain ⟨l, hl, _, hdig, hval, hlen⟩ :=
        ih (n / 10) (Nat.digitChar (n % 10) :: ds) (by omega)
      refine ⟨l ++ [Nat.digitChar (n % 10)], ?_, by simp, ?_, ?_, ?_⟩
      · simp [Nat.toDigitsCore, h0, hl]
      · intro c hc
        rw [List.mem_append, List.mem_singleton] at hc
        rcases hc with hc | hc
        · exact hdig c hc
        · rw [hc]
          exact hd.1
      · intro acc tail
        rw [List.append_assoc, List.singleton_append, hval, atoi_digits_cons _ _ _ hd.1, hd.2]
        congr 1
        rw [List.length_append, List.length_singleton, pow_succ]
        have := Nat.div_add_mod n 10
        nlinarith [this]
      · intro k hk hnk
        have hk2 : 2 ≤ k := by
          by_contra hc
          have : k = 1 := by omega
          subst this
          omega
        have hpow : 10 ^ k = 10 ^ (k - 1) * 10 := by
          rw [← pow_succ]
          congr 1
          omega
        have := hlen (k - 1) (by omega) (by
          rw [hpow] at hnk
          exact Nat.div_lt_of_lt_mul (by rw [Nat.mul_comm]; exact hnk))
        rw [List.length_append, List.length_singleton]
        omega

lemma isDigit_clean (c : Char) (h : c.isDigit = true) :
    c ≠ ' ' ∧ c ≠ '\n' ∧ c ≠ NUL ∧ c ≠ '-' ∧ c ≠ '+' ∧ isspace c = false := by
  have hv : 48 ≤ c.toNat ∧ c.toNat ≤ 57 := by
    simp only [Char.isDigit, Bool.and_eq_true, decide_eq_true_eq] at h
    exact ⟨h.1, h.2⟩
  refine ⟨?_, ?_, ?_, ?_, ?_, ?_⟩
  · rintro rfl
    exact absurd hv (by decide)
  · rintro rfl
    exact absurd hv (by decide)
  · rintro rfl
    exact absurd hv (by decide)
  · rintro rfl
    exact absurd hv (by decide)
  · rintro rfl
    exact absurd hv (by decide)
  · unfold isspace
    have h1 : (c == ' ') = false := by
      rw [beq_eq_false_iff_ne]
      rintro rfl
      exact absurd hv (by decide)
    rw [h1]
    simp only [Bool.false_or, Bool.and_eq_false_imp, decide_eq_true_eq, decide_eq_false_iff_not]
    omega

lemma takeWhile_append_stop (p : Char → Bool) (l : List Char) (a : Char) (r : List Char)
    (hl : ∀ c ∈ l, p c = true) (ha : p a = false) :
    (l ++ a :: r).takeWhile p = l ∧ (l ++ a :: r).dropWhile p = a :: r := by
  induction l with
  | nil => simp [List.takeWhile, List.dropWhile, ha]
  | cons c cs ih =>
    have hc := hl c (List.mem_cons_self c cs)
    obtain ⟨h1, h2⟩ := ih (fun d hd => hl d (List.mem_cons_of_mem c hd))
    simp [List.takeWhile, List.dropWhile, hc, h1, h2]

lemma takeWhile_all (p : Char → Bool) (l : List Char) (hl : ∀ c ∈ l, p c = true) :
    l.takeWhile p = l ∧ l.dropWhile p = [] := by
  induction l with
  | nil => simp
  | cons c cs ih =>
    have hc := hl c (List.mem_cons_self c cs)
    obtain ⟨h1, h2⟩ := ih (fun d hd => hl d (List.mem_cons_of_mem c hd))
    simp [List.takeWhile, List.dropWhile, hc, h1, h2]

lemma strtok_token (tok rest : List Char) (hne : tok ≠ []) (hsp : ∀ c ∈ tok, c ≠ ' ') :
    strtok ' ' (tok ++ ' ' :: rest) = some (tok, rest) := by
  have hp : ∀ c ∈ tok, (c != ' ') = true := fun c hc => by simpa using hsp c hc
  obtain ⟨h1, h2⟩ := takeWhile_append_stop (fun d => d != ' ') tok ' ' rest hp (by decide)
  cases tok with
  | nil => exact absurd rfl hne
  | cons c cs =>
    have hc : (c == ' ') = false := by
      simpa using hsp c (List.mem_cons_self c cs)
    unfold strtok
    rw [List.cons_append, List.dropWhile_cons, hc]
    simp only [Bool.false_eq_true, if_false]
    rw [← List.cons_append, h1, h2]
    rfl

lemma strtok_last (tok : List Char) (hne : tok ≠ []) (hsp : ∀ c ∈ tok, c ≠ ' ') :
    strtok ' ' tok = some (tok, []) := by
  have hp : ∀ c ∈ tok, (c != ' ') = true := fun c hc => by simpa using hsp c hc
  obtain ⟨h1, h2⟩ := takeWhile_all (fun d => d != ' ') tok hp
  cases tok with
  | nil => exact absurd rfl hne
  | cons c cs =>
    have hc : (c == ' ') = false := by
      simpa using hsp c (List.mem_cons_self c cs)
    unfold strtok
    rw [List.dropWhile_cons, hc]
    simp only [Bool.false_eq_true, if_false]
    rw [h1, h2]
    rfl

lemma c_string_padded (line : List Char) (k : Nat) (h : ∀ c ∈ line, c ≠ NUL) :
    c_string (line ++ List.replicate (k + 1) NUL) = some line := by
  have hp : ∀ c ∈ line, (c != NUL) = true := fun c hc => by simpa using h c hc
  obtain ⟨h1, -⟩ := takeWhile_append_stop (fun d => d != NUL) line NUL (List.replicate k NUL)
    hp (by decide)
  unfold c_string
  rw [List.replicate_succ, if_pos (by simp), h1]

lemma decimal_spec (z : Int) (hlo : INT_MIN ≤ z) (hhi : z ≤ INT_MAX) :
    decimal z ≠ [] ∧ (∀ c ∈ decimal z, c ≠ ' ' ∧ c ≠ '\n' ∧ c ≠ NUL) ∧
    (decimal z).length ≤ 11 ∧
    (∀ tail, (∀ c, tail.head? = some c → c.isDigit = false) →
      atoi (decimal z ++ tail) = z) := by
  obtain ⟨l, hl, hne, hdig, hval, hlen⟩ :=
    toDigitsCore_spec (z.natAbs + 1) z.natAbs [] (Nat.lt_succ_self _)
  have htd : Nat.toDigits 10 z.natAbs = l := by
    unfold Nat.toDigits
    rw [hl]
    simp
  have hbound : z.natAbs < 10 ^ 10 := by
    unfold INT_MIN at hlo
    unfold INT_MAX at hhi
    omega
  have hl10 : l.length ≤ 10 := hlen 10 (by decide) hbound
  have hclean : ∀ c ∈ l, c ≠ ' ' ∧ c ≠ '\n' ∧ c ≠ NUL := fun c hc =>
    ⟨(isDigit_clean c (hdig c hc)).1, (isDigit_clean c (hdig c hc)).2.1,
      (isDigit_clean c (hdig c hc)).2.2.1⟩
  have hnum : ∀ tail, (∀ c, tail.head? = some c → c.isDigit = false) →
      atoi_digits 0 (l ++ tail) = z.natAbs := by
    intro tail ht
    rw [hval, atoi_digits_stop _ _ ht]
    simp
  unfold decimal
  by_cases hneg : z < 0
  · rw [if_pos hneg, htd]
    refine ⟨by simp, ?_, by simp only [List.length_cons]; omega, ?_⟩
    · intro c hc
      rw [List.mem_cons] at hc
      rcases hc with hc | hc
      · rw [hc]
        decide
      · exact hclean c hc
    · intro tail ht
      unfold atoi strtol
      have hsp : isspace '-' = false := by decide
      rw [List.cons_append, List.dropWhile_cons, hsp]
      simp only [Bool.false_eq_true, if_false, if_true]
      rw [hnum tail ht]
      have hz : -((z.natAbs : Nat) : Int) = z := by omega
      rw [hz, clamp_long_of_range z hlo hhi]
      exact to_int_of_range z hlo hhi
  · rw [if_neg hneg, htd]
    refine ⟨hne, hclean, by omega, ?_⟩
    intro tail ht
    have hz : ((z.natAbs : Nat) : Int) = z := by omega
    cases hlc : l with
    | nil => exact absurd hlc hne
    | cons c cs =>
      have hcd := isDigit_clean c (hdig c (by rw [hlc]; exact List.mem_cons_self c cs))
      unfold atoi strtol
      rw [List.cons_append, List.dropWhile_cons, hcd.2.2.2.2.2]
      simp only [Bool.false_eq_true, if_false]
      rw [if_neg hcd.2.2.2.1, if_neg hcd.2.2.2.2.1, ← List.cons_append, ← hlc, hnum tail ht, hz,
        clamp_long_of_range z hlo hhi]
      exact to_int_of_range z hlo hhi

lemma read_until_loop_deliver (expected : Char) (n : Nat) (t1 : Int) (env : Nat → ReadEvent) :
    ∀ (rest done : List Char) (fuel i : Nat) (st : LoopState),
      i = done.length → st.pos = done.length → st.fail_count = 0 →
      st.buffer = done ++ List.replicate (n - st.pos) NUL →
      done.length + rest.length < n → expected ∉ rest →
      (∀ k, k < rest.length + 1 →
        (env (i + k)).byte = (rest ++ [expected])[k]? ∧ (env (i + k)).now - t1 < 370) →
      rest.length + 1 ≤ fuel →
      read_until_loop expected n t1 env fuel i st =
        some (done ++ rest ++
          expected :: List.replicate (n - done.length - rest.length - 1) NUL) := by
  intro rest
  induction rest with
  | nil =>
    intro done fuel i st hi hpos hfc hbuf hlen hne henv hfuel
    obtain ⟨f, rfl⟩ : ∃ f, fuel = f + 1 := ⟨fuel - 1, by simp at hfuel; omega⟩
    have hp : st.pos < n := by simp at hlen; omega
    obtain ⟨hshape, hget⟩ := read_byte_shape done st (env i) n hpos.symm hp hbuf
    have hb : (env i).byte = some expected := by
      have := (henv 0 (by simp)).1
      simpa using this
    rw [hb] at hshape hget
    have hstep : read_until_step expected n t1 st (env i) =
        .done (read_byte st (env i)) := by
      unfold read_until_step
      dsimp only
      rw [if_pos (by simpa using hget)]
    unfold read_until_loop
    rw [if_pos hp, hstep]
    dsimp only
    rw [hshape, hpos]
    simp
  | cons c rest ih =>
    intro done fuel i st hi hpos hfc hbuf hlen hne henv hfuel
    have hlen2 : done.length + (rest.length + 1) < n := by simpa using hlen
    have hfuel2 : rest.length + 1 + 1 ≤ fuel := by simpa using hfuel
    obtain ⟨f, rfl⟩ : ∃ f, fuel = f + 1 := ⟨fuel - 1, by omega⟩
    have hp : st.pos < n := by omega
    obtain ⟨hshape, hget⟩ := read_byte_shape done st (env i) n hpos.symm hp hbuf
    obtain ⟨hb0, hnow⟩ := henv 0 (by simp)
    have hb : (env i).byte = some c := by simpa using hb0
    have hnow2 : ¬ 370 ≤ (env i).now - t1 := by
      have : (env (i + 0)).now - t1 < 370 := hnow
      simp only [Nat.add_zero] at this
      omega
    rw [hb] at hshape hget
    have hce : c ≠ expected := fun h => hne (by rw [h]; exact List.mem_cons_self _ _)
    have hstep : read_until_step expected n t1 st (env i) =
        .next ⟨st.pos + 1, 0, read_byte st (env i)⟩ := by
      unfold read_until_step
      dsimp only
      rw [if_neg (by rw [hget]; simpa using hce), if_neg hnow2, hb]
    unfold read_until_loop
    rw [if_pos hp, hstep]
    dsimp only
    have hrec := ih (done ++ [c]) f (i + 1) ⟨st.pos + 1, 0, read_byte st (env i)⟩
      (by simp [hi]) (by simp [hpos]) rfl
      (by
        dsimp only
        rw [hshape]
        simp [Nat.sub_sub])
      (by
        have hl1 : (done ++ [c]).length = done.length + 1 := by simp
        rw [hl1]
        omega)
      (fun h => hne (List.mem_cons_of_mem _ h))
      (by
        intro k hk
        have := henv (k + 1) (by simp only [List.length_cons]; omega)
        have hidx : i + 1 + k = i + (k + 1) := by omega
        rw [hidx]
        simpa using this)
      (by omega)
    rw [hrec]
    have hl1 : (done ++ [c]).length = done.length + 1 := by simp
    have hl2 : (c :: rest).length = rest.length + 1 := by simp
    have hsub : n - (done.length + 1) - rest.length - 1 =
        n - done.length - (rest.length + 1) - 1 := by omega
    rw [hl1, hl2, hsub]
    simp

lemma read_until_deliver_line (env : Nat → ReadEvent) (t1 : Int) (body : List Char)
    (expected : Char) (n : Nat) (hlen : body.length < n) (hne : expected ∉ body)
    (henv : ∀ k, k < body.length + 1 →
      (env k).byte = (body ++ [expected])[k]? ∧ (env k).now - t1 < 370) :
    read_until env t1 (List.replicate n NUL) expected n =
      some (body ++ expected :: List.replicate (n - body.length - 1) NUL) := by
  unfold read_until
  have h := read_until_loop_deliver expected n t1 env body [] (6 * n) 0
    ⟨0, 0, List.replicate n NUL⟩ rfl rfl rfl (by simp) (by simpa using hlen) hne
    (by simpa using henv) (by omega)
  simpa using h

lemma deliver_spec (line : List Char) (t : Int) (k : Nat) (hk : k < line.length) :
    (deliver line t k).byte = (line)[k]? ∧ (deliver line t k).now = t := by
  unfold deliver
  rw [List.get?_eq_getElem?, List.getElem?_eq_getElem hk]
  exact ⟨rfl, rfl⟩

lemma read_wixel_parse_line (t r f b s x : Int)
    (ht : INT_MIN ≤ t ∧ t ≤ INT_MAX) (hr : INT_MIN ≤ r ∧ r ≤ INT_MAX)
    (hf : INT_MIN ≤ f ∧ f ≤ INT_MAX) (hb : INT_MIN ≤ b ∧ b ≤ INT_MAX)
    (hs : INT_MIN ≤ s ∧ s ≤ INT_MAX) (hx : INT_MIN ≤ x ∧ x ≤ INT_MAX) (k : Nat) :
    read_wixel_parse (wixel_line t r f b s x ++ List.replicate (k + 1) NUL) =
      .ok [t, r, f, b, s, x, 0, 0] := by
  obtain ⟨nt, ct, -, at_⟩ := decimal_spec t ht.1 ht.2
  obtain ⟨nr, cr, -, ar⟩ := decimal_spec r hr.1 hr.2
  obtain ⟨nf, cf, -, af⟩ := decimal_spec f hf.1 hf.2
  obtain ⟨nb, cb, -, ab⟩ := decimal_spec b hb.1 hb.2
  obtain ⟨ns, cs, -, as_⟩ := decimal_spec s hs.1 hs.2
  obtain ⟨nx, cx, -, ax⟩ := decimal_spec x hx.1 hx.2
  have hnul : ∀ c ∈ wixel_line t r f b s x, c ≠ NUL := by
    intro c hc
    unfold wixel_line at hc
    simp only [List.mem_append, List.mem_cons, List.mem_singleton, List.not_mem_nil,
      or_false] at hc
    have hsp : (' ' : Char) ≠ NUL := by decide
    have hnl : ('\n' : Char) ≠ NUL := by decide
    rcases hc with h | h | h | h | h | h | h | h | h | h | h | h
    · exact (ct c h).2.2
    · rw [h]; exact hsp
    · exact (cr c h).2.2
    · rw [h]; exact hsp
    · exact (cf c h).2.2
    · rw [h]; exact hsp
    · exact (cb c h).2.2
    · rw [h]; exact hsp
    · exact (cs c h).2.2
    · rw [h]; exact hsp
    · exact (cx c h).2.2
    · rw [h]; exact hnl
  have hlast_ne : decimal x ++ ['\n'] ≠ [] := by simp
  have hlast_sp : ∀ c ∈ decimal x ++ ['\n'], c ≠ ' ' := by
    intro c hc
    rw [List.mem_append, List.mem_singleton] at hc
    rcases hc with h | h
    · exact (cx c h).1
    · rw [h]
      decide
  have hstop : ∀ c, (['\n'] : List Char).head? = some c → c.isDigit = false := by
    intro c hc
    simp only [List.head?_cons, Option.some.injEq] at hc
    rw [← hc]
    decide
  have hnil : ∀ c, ([] : List Char).head? = some c → c.isDigit = false := by
    intro c hc
    simp at hc
  have e_t : atoi (decimal t) = t := by simpa using at_ [] hnil
  have e_r : atoi (decimal r) = r := by simpa using ar [] hnil
  have e_f : atoi (decimal f) = f := by simpa using af [] hnil
  have e_b : atoi (decimal b) = b := by simpa using ab [] hnil
  have e_s : atoi (decimal s) = s := by simpa using as_ [] hnil
  have e_x : atoi (decimal x ++ ['\n']) = x := ax ['\n'] hstop
  unfold read_wixel_parse
  rw [c_string_padded _ k hnul]
  dsimp only
  unfold wixel_line
  rw [strtok_token _ _ nt (fun c h => (ct c h).1), read_wixel_tokens,
    strtok_token _ _ nr (fun c h => (cr c h).1), read_wixel_tokens,
    strtok_token _ _ nf (fun c h => (cf c h).1), read_wixel_tokens,
    strtok_token _ _ nb (fun c h => (cb c h).1), read_wixel_tokens,
    strtok_token _ _ ns (fun c h => (cs c h).1), read_wixel_tokens,
    strtok_last _ hlast_ne hlast_sp, read_wixel_tokens]
  have hend : strtok ' ' [] = none := rfl
  rw [hend, read_wixel_tokens, e_t, e_r, e_f, e_b, e_s, e_x]
  rfl

lemma wixel_line_length (t r f b s x : Int)
    (ht : INT_MIN ≤ t ∧ t ≤ INT_MAX) (hr : INT_MIN ≤ r ∧ r ≤ INT_MAX)
    (hf : INT_MIN ≤ f ∧ f ≤ INT_MAX) (hb : INT_MIN ≤ b ∧ b ≤ INT_MAX)
    (hs : INT_MIN ≤ s ∧ s ≤ INT_MAX) (hx : INT_MIN ≤ x ∧ x ≤ INT_MAX) :
    (wixel_line t r f b s x).length ≤ 72 := by
  have h1 := (decimal_spec t ht.1 ht.2).2.2.1
  have h2 := (decimal_spec r hr.1 hr.2).2.2.1
  have h3 := (decimal_spec f hf.1 hf.2).2.2.1
  have h4 := (decimal_spec b hb.1 hb.2).2.2.1
  have h5 := (decimal_spec s hs.1 hs.2).2.2.1
  have h6 := (decimal_spec x hx.1 hx.2).2.2.1
  unfold wixel_line
  simp only [List.length_append, List.length_cons, List.length_nil]
  omega

lemma read_wixel_of_line (t r f b s x : Int) (env : Nat → ReadEvent) (t1 : Int) (ts : String)
    (ht : INT_MIN ≤ t ∧ t ≤ INT_MAX) (hr : INT_MIN ≤ r ∧ r ≤ INT_MAX)
    (hf : INT_MIN ≤ f ∧ f ≤ INT_MAX) (hb : INT_MIN ≤ b ∧ b ≤ INT_MAX)
    (hs : INT_MIN ≤ s ∧ s ≤ INT_MAX) (hx : INT_MIN ≤ x ∧ x ≤ INT_MAX)
    (hbg : Int.tdiv (int_add r f) 2 ≠ 0)
    (henv : ∀ k, k < (wixel_line t r f b s x).length →
      (env k).byte = (wixel_line t r f b s x)[k]? ∧ (env k).now - t1 < 370) :
    read_wixel env t1 ts = .ok (some ⟨ts, 0, t, r, f, b, s, x, raw_to_bg r f⟩) := by
  obtain ⟨-, ct, -, -⟩ := decimal_spec t ht.1 ht.2
  obtain ⟨-, cr, -, -⟩ := decimal_spec r hr.1 hr.2
  obtain ⟨-, cf, -, -⟩ := decimal_spec f hf.1 hf.2
  obtain ⟨-, cb, -, -⟩ := decimal_spec b hb.1 hb.2
  obtain ⟨-, cs, -, -⟩ := decimal_spec s hs.1 hs.2
  obtain ⟨-, cx, -, -⟩ := decimal_spec x hx.1 hx.2
  have hlen := wixel_line_length t r f b s x ht hr hf hb hs hx
  have hline : wixel_line t r f b s x =
      (decimal t ++ ' ' :: (decimal r ++ ' ' :: (decimal f ++ ' ' :: (decimal b ++ ' ' ::
        (decimal s ++ ' ' :: decimal x))))) ++ ['\n'] := by
    simp [wixel_line]
  generalize hbody : (decimal t ++ ' ' :: (decimal r ++ ' ' :: (decimal f ++ ' ' ::
    (decimal b ++ ' ' :: (decimal s ++ ' ' :: decimal x))))) = body at hline
  have hnl : '\n' ∉ body := by
    intro hc
    rw [← hbody] at hc
    simp only [List.mem_append, List.mem_cons] at hc
    have hsp : ('\n' : Char) ≠ ' ' := by decide
    rcases hc with h | h | h | h | h | h | h | h | h | h | h
    · exact (ct _ h).2.1 rfl
    · exact hsp h
    · exact (cr _ h).2.1 rfl
    · exact hsp h
    · exact (cf _ h).2.1 rfl
    · exact hsp h
    · exact (cb _ h).2.1 rfl
    · exact hsp h
    · exact (cs _ h).2.1 rfl
    · exact hsp h
    · exact (cx _ h).2.1 rfl
  have hblen : body.length + 1 = (wixel_line t r f b s x).length := by
    rw [hline]
    simp
  have hread := read_until_deliver_line env t1 body '\n' 100 (by omega) hnl (by
    intro k hk
    have := henv k (by omega)
    rw [hline] at this
    exact this)
  have hpad : 100 - body.length - 1 = (100 - body.length - 2) + 1 := by omega
  have hbuf : body ++ '\n' :: List.replicate (100 - body.length - 1) NUL =
      wixel_line t r f b s x ++ List.replicate ((100 - body.length - 2) + 1) NUL := by
    rw [hline, ← hpad]
    simp
  have hz : ¬ raw_to_bg r f = 0 := fun h => hbg ((raw_to_bg_eq_zero_iff r f).mp h)
  unfold read_wixel
  rw [hread, hbuf]
  dsimp only
  unfold read_wixel_frame
  rw [read_wixel_parse_line t r f b s x ht hr hf hb hs hx]
  dsimp only
  unfold read_wixel_build
  dsimp only
  have hv1 : ([t, r, f, b, s, x, 0, 0] : List Int).getD 1 0 = r := rfl
  have hv2 : ([t, r, f, b, s, x, 0, 0] : List Int).getD 2 0 = f := rfl
  rw [hv1, hv2, if_neg hz]
  rfl

lemma raw_to_bg_example : raw_to_bg 400 380 = 390 / 22500 := by
  rw [raw_to_bg_def]
  have h2 : Int.tdiv (int_add 400 380) 2 = 390 := by decide
  rw [h2]
  norm_num

/-- C3. For every six ints `t r f b s x` with `(r + f) / 2 != 0` (in C int arithmetic),
when the device delivers the bytes of the line `"t r f b s x\n"` (decimal notation, single
spaces), every one-byte read succeeding with less than 370 seconds elapsed, `read_wixel`
returns a reading with `transmitter_id = t`, `raw_value = r`, `filtered_value = f`,
`battery_life = b`, `received_signal_strength = s`, `transmission_id = x`,
`relative_time = 0` and `bg_value = raw_to_bg r f`.  For the line
`"7 400 380 90 40 123\n"` the fields are 7, 400, 380, 90, 40, 123 and the measurement is
`390 / 22500`. -/
theorem read_wixel_line :
    (∀ (t r f b s x : Int) (env : Nat → ReadEvent) (t1 : Int) (ts : String),
      (INT_MIN ≤ t ∧ t ≤ INT_MAX) → (INT_MIN ≤ r ∧ r ≤ INT_MAX) →
      (INT_MIN ≤ f ∧ f ≤ INT_MAX) → (INT_MIN ≤ b ∧ b ≤ INT_MAX) →
      (INT_MIN ≤ s ∧ s ≤ INT_MAX) → (INT_MIN ≤ x ∧ x ≤ INT_MAX) →
      Int.tdiv (int_add r f) 2 ≠ 0 →
      (∀ k, k < (wixel_line t r f b s x).length →
        (env k).byte = (wixel_line t r f b s x)[k]? ∧ (env k).now - t1 < 370) →
      read_wixel env t1 ts = .ok (some
        { capture_timestamp := ts, relative_time := 0, transmitter_id := t, raw_value := r,
          filtered_value := f, battery_life := b, received_signal_strength := s,
          transmission_id := x, bg_value := raw_to_bg r f })) ∧
    wixel_line 7 400 380 90 40 123 = "7 400 380 90 40 123\n".toList ∧
    (∀ ts : String, read_wixel (deliver "7 400 380 90 40 123\n".toList 0) 0 ts = .ok (some
        { capture_timestamp := ts, relative_time := 0, transmitter_id := 7, raw_value := 400,
          filtered_value := 380, battery_life := 90, received_signal_strength := 40,
          transmission_id := 123, bg_value := 390 / 22500 })) := by
  have hl : wixel_line 7 400 380 90 40 123 = "7 400 380 90 40 123\n".toList := by decide
  refine ⟨?_, hl, ?_⟩
  · intro t r f b s x env t1 ts ht hr hf hb hs hx hbg henv
    exact read_wixel_of_line t r f b s x env t1 ts ht hr hf hb hs hx hbg henv
  · intro ts
    rw [← raw_to_bg_example, ← hl]
    refine read_wixel_of_line 7 400 380 90 40 123 _ 0 ts (by decide) (by decide) (by decide)
      (by decide) (by decide) (by decide) (by decide) ?_
    intro k hk
    obtain ⟨h1, h2⟩ := deliver_spec (wixel_line 7 400 380 90 40 123) 0 k hk
    rw [h1, h2]
    exact ⟨rfl, by decide⟩

/-- Witness for C3 with negative and extreme values: the line
`"-3 -500 20 0 2147483647 -2147483648\n"` delivered five seconds after the call began. -/
theorem read_wixel_line_witness :
    wixel_line (-3) (-500) 20 0 2147483647 (-2147483648) =
      "-3 -500 20 0 2147483647 -2147483648\n".toList ∧
    Int.tdiv (int_add (-500) 20) 2 = -240 ∧
    read_wixel (deliver (wixel_line (-3) (-500) 20 0 2147483647 (-2147483648)) 5) 0 "ts" =
      .ok (some ⟨"ts", 0, -3, -500, 20, 0, 2147483647, -2147483648, raw_to_bg (-500) 20⟩) :=
  ⟨by decide, by decide,
   read_wixel_line.1 (-3) (-500) 20 0 2147483647 (-2147483648) _ 0 "ts" (by decide)
     (by decide) (by decide) (by decide) (by decide) (by decide) (by decide)
     (fun k hk =>
       ⟨(deliver_spec (wixel_line (-3) (-500) 20 0 2147483647 (-2147483648)) 5 k hk).1, by
         rw [(deliver_spec (wixel_line (-3) (-500) 20 0 2147483647 (-2147483648)) 5 k hk).2]
         decide⟩)⟩

end SSWixelBridge
